import Mathlib

/-!
# CV-Ranker: verification of the résumé scoring/ranking pipeline

Shallow embedding of the core pipeline of `src/app.py` from the
`saify09/CV-Ranker` repository, together with theorems settling the
frozen claims about its specification.

Modelling conventions:
* Python strings are Lean `String`s; character-level work happens on
  `String.data : List Char`.
* The regex matchers `EMAIL_RE`, `PHONE_RE` and the anchored name
  pattern of `guess_name` are embedded as executable matchers that
  reproduce Python `re` leftmost / greedy-with-backtracking semantics
  for these specific patterns (see the comments at each matcher).
* The character classes `[A-Z]`, `[a-z]`, `\d`, `\s` are modelled over
  the ASCII range (Python's `re` on `str` additionally matches some
  non-ASCII code points for `\d`/`\s`; every text appearing in the
  claims is ASCII).
* The third-party extraction capabilities (`pdfminer`'s
  `extract_text`, `python-docx`'s paragraph list) are abstracted as
  per-file `Except` values carried by `StoredFile`: `Except.ok`
  models a successful call, `Except.error m` models a raised
  exception whose `str()` is `m`.
* `pandas.DataFrame.sort_values(by="score", ascending=False)` is
  abstracted as an explicit `sortImpl` parameter constrained by
  `ScoreSortSpec` (the documented contract: the result is a
  permutation of the rows, ordered by descending score).  pandas'
  default `kind='quicksort'` does not guarantee stability, so no
  stability property is assumed.
-/

/-! ## Character classes (ASCII fragments of the Python classes) -/

/-- `[A-Z]` -/
def asciiUpper (c : Char) : Bool := 'A' ≤ c && c ≤ 'Z'

/-- `[a-z]` -/
def asciiLower (c : Char) : Bool := 'a' ≤ c && c ≤ 'z'

/-- `[A-Za-z]` -/
def asciiLetter (c : Char) : Bool := asciiUpper c || asciiLower c

/-- `\d` -/
def asciiDigit (c : Char) : Bool := '0' ≤ c && c ≤ '9'

/-- `\s` (ASCII fragment: space, tab, newline, carriage return,
vertical tab, form feed).  Also the character class stripped by
Python's `str.strip()`. -/
def pySpace (c : Char) : Bool :=
  c = ' ' || c = '\t' || c = '\n' || c = '\r' || c.toNat = 0x0b || c.toNat = 0x0c

/-- Python `str.lower` on one character (ASCII). -/
def pyToLower (c : Char) : Char :=
  if asciiUpper c then Char.ofNat (c.toNat + 32) else c

/-- Python `str.lower`. -/
def strLower (s : String) : String := String.mk (s.data.map pyToLower)

/-- Python `str.endswith(suffix)`. -/
def strEndsWith (s suffix : String) : Bool := suffix.data.isSuffixOf s.data

/-- Python `str.strip()` on a character list. -/
def pyStripChars (l : List Char) : List Char :=
  ((l.dropWhile pySpace).reverse.dropWhile pySpace).reverse

/-- Python `str.strip()`. -/
def pyStrip (s : String) : String := String.mk (pyStripChars s.data)

/-- Line boundaries recognised by Python `str.splitlines()`
(the code points below 0x2029; `\r\n` is handled as one boundary
in `splitlinesGo`). -/
def isLineBreak (c : Char) : Bool :=
  c = '\n' || c = '\r' || c.toNat = 0x0b || c.toNat = 0x0c ||
  c.toNat = 0x1c || c.toNat = 0x1d || c.toNat = 0x1e || c.toNat = 0x85 ||
  c.toNat = 0x2028 || c.toNat = 0x2029

/-- Worker for `pySplitlines`: accumulates the current line (reversed)
and splits at each boundary; a trailing boundary does not produce an
extra empty line. -/
def splitlinesGo (acc : List Char) : List Char → List (List Char)
  | [] => [acc.reverse]
  | '\r' :: '\n' :: rest =>
    acc.reverse :: (if rest.isEmpty then [] else splitlinesGo [] rest)
  | c :: rest =>
    if isLineBreak c then
      acc.reverse :: (if rest.isEmpty then [] else splitlinesGo [] rest)
    else splitlinesGo (c :: acc) rest

/-- Python `str.splitlines()`. -/
def pySplitlines (s : String) : List String :=
  if s.data.isEmpty then [] else (splitlinesGo [] s.data).map String.mk

/-- Python `str.count(sub)` for a non-empty `sub`: number of
non-overlapping occurrences, scanning left to right (fuelled by the
length of the scanned text). -/
def strCountAux (k : List Char) : Nat → List Char → Nat
  | 0, _ => 0
  | _ + 1, [] => 0
  | fuel + 1, c :: cs =>
    if k.isPrefixOf (c :: cs) then 1 + strCountAux k fuel ((c :: cs).drop k.length)
    else strCountAux k fuel cs

/-- Python `text.count(sub)`. -/
def pyCount (text sub : String) : Nat := strCountAux sub.data text.data.length text.data

/-! ## The regex matchers of `app.py`

```
EMAIL_RE = re.compile(r"[A-Za-z0-9._%+-]+@[A-Za-z0-9.-]+\.[A-Za-z]{2,}")
PHONE_RE = re.compile(r"\+?\d[\d\s-]{7,}\d")
```
-/

/-- The local-part class `[A-Za-z0-9._%+-]` of `EMAIL_RE`. -/
def emailLocalChar (c : Char) : Bool :=
  asciiLetter c || asciiDigit c || c = '.' || c = '_' || c = '%' || c = '+' || c = '-'

/-- The domain class `[A-Za-z0-9.-]` of `EMAIL_RE`. -/
def emailDomainChar (c : Char) : Bool :=
  asciiLetter c || asciiDigit c || c = '.' || c = '-'

/-- Inside the maximal domain-class run `r`, position `b` is a valid
place for the `\.` of `EMAIL_RE`: at least one domain character
before it, a literal dot at `b`, and at least two letters after it. -/
def emailDotOk (r : List Char) (b : Nat) : Bool :=
  1 ≤ b && r.getD b '@' = '.' && 2 ≤ ((r.drop (b + 1)).takeWhile asciiLetter).length

/-- Attempt to match `EMAIL_RE` anchored at the head of `l`,
returning `(match, rest of input)`.

Python semantics reproduced: `[A-Za-z0-9._%+-]+` is forced to be the
maximal local run (a shorter run is followed by a local character,
never by `@`); `[A-Za-z0-9.-]+` is greedy and backtracks downwards
until `\.` and then `[A-Za-z]{2,}` succeed, so the chosen dot
position is the largest valid one inside the maximal domain run
(the character following that run is not in the class, hence is
neither `.` nor a letter); the final `[A-Za-z]{2,}` takes the whole
letter run after the dot. -/
def emailMatchAt (l : List Char) : Option (List Char × List Char) :=
  let a := l.takeWhile emailLocalChar
  if a.isEmpty then none else
  match l.drop a.length with
  | '@' :: afterAt =>
    let r := afterAt.takeWhile emailDomainChar
    match (List.range r.length).reverse.find? (fun b => emailDotOk r b) with
    | some b =>
      let tld := (r.drop (b + 1)).takeWhile asciiLetter
      let m := a ++ '@' :: (r.take b ++ '.' :: tld)
      some (m, l.drop m.length)
    | none => none
  | _ => none

/-- The middle class `[\d\s-]` of `PHONE_RE`. -/
def phoneChar (c : Char) : Bool := asciiDigit c || pySpace c || c = '-'

/-- Inside the maximal middle-class run `r`, position `k` is a valid
place for the final `\d` of `PHONE_RE`: at least 7 middle characters
before it and a digit at `k`. -/
def phoneEndOk (r : List Char) (k : Nat) : Bool :=
  7 ≤ k && asciiDigit (r.getD k ' ')

/-- Attempt to match `\d[\d\s-]{7,}\d` anchored at the head of `l`,
returning the length of the match.  `[\d\s-]{7,}` is greedy and
backtracks downwards until the final `\d` succeeds, so the final
digit sits at the largest valid position inside the maximal
middle-class run (the character after that run is not in the class,
hence not a digit). -/
def phoneMatchCore (l : List Char) : Option Nat :=
  match l with
  | [] => none
  | d :: rest =>
    if asciiDigit d then
      match (List.range (rest.takeWhile phoneChar).length).reverse.find?
          (fun k => phoneEndOk (rest.takeWhile phoneChar) k) with
      | some k => some (k + 2)
      | none => none
    else none

/-- Attempt to match `PHONE_RE` anchored at the head of `l`.  The
optional `\+?` is used exactly when the first character is `+`
(without it a leading `+` cannot match `\d`). -/
def phoneMatchAt (l : List Char) : Option (List Char × List Char) :=
  if l.head? = some '+' then
    match phoneMatchCore l.tail with
    | some n => some (l.take (n + 1), l.drop (n + 1))
    | none => none
  else
    match phoneMatchCore l with
    | some n => some (l.take n, l.drop n)
    | none => none

/-- Python `re.findall` for a matcher with no zero-width matches:
scan left to right, at each position try an anchored match; on
success emit it and continue after it, otherwise advance one
character.  Fuelled by the input length (every step consumes at
least one character for the matchers used here). -/
def reFindAllAux (matchAt : List Char → Option (List Char × List Char)) :
    Nat → List Char → List (List Char)
  | 0, _ => []
  | _ + 1, [] => []
  | fuel + 1, c :: cs =>
    match matchAt (c :: cs) with
    | some (m, rest) => m :: reFindAllAux matchAt fuel rest
    | none => reFindAllAux matchAt fuel cs

/-- Python `PATTERN.findall(s)`. -/
def pyFindAll (matchAt : List Char → Option (List Char × List Char)) (s : String) :
    List String :=
  (reFindAllAux matchAt s.data.length s.data).map String.mk

/-- Python `PATTERN.search(s) is not None`: some anchored match
succeeds at some position, i.e. `findall` is non-empty. -/
def reSearch (matchAt : List Char → Option (List Char × List Char)) (s : String) :
    Bool :=
  !(reFindAllAux matchAt s.data.length s.data).isEmpty

/-! ## Helpers of `app.py` -/

/-- `allowed_file` (`app.py:30-31`):
`"." in filename and filename.rsplit(".", 1)[1].lower() in {"pdf", "docx"}`.
`rsplit(".", 1)[1]` is the suffix after the last dot. -/
def allowed_file (filename : String) : Bool :=
  filename.data.contains '.' &&
    (let ext := strLower (String.mk ((filename.data.reverse.takeWhile (fun c => c ≠ '.')).reverse))
     ext = "pdf" || ext = "docx")

/-- One file of the upload directory, with the behaviour of the two
third-party extraction capabilities on it and its formatted
modification time. -/
structure StoredFile where
  filename : String
  /-- behaviour of `pdfminer.high_level.extract_text` on this file -/
  pdfBeh : Except String String
  /-- behaviour of `docx.Document(path).paragraphs` (list of paragraph
  texts) on this file -/
  docxBeh : Except String (List String)
  /-- `datetime.fromtimestamp(os.path.getmtime(path)).strftime(...)` -/
  mtimeStr : String

/-- The diagnostic text produced for a raised PDF extraction error. -/
def pdfErrorText (m : String) : String := "[PDF read error: " ++ m ++ "]"

/-- The diagnostic text produced for a raised DOCX extraction error. -/
def docxErrorText (m : String) : String := "[DOCX read error: " ++ m ++ "]"

/-- `extract_text_from_file` (`app.py:33-45`): dispatch on the
lower-cased path suffix; a raised extraction error becomes the
bracketed diagnostic string; any other extension yields `""`.
(The real argument is `uploads/<filename>`; the constant directory
prefix cannot affect the two `endswith` tests.) -/
def extract_text_from_file (f : StoredFile) : String :=
  if strEndsWith (strLower f.filename) ".pdf" then
    match f.pdfBeh with
    | Except.ok t => t
    | Except.error e => pdfErrorText e
  else if strEndsWith (strLower f.filename) ".docx" then
    match f.docxBeh with
    | Except.ok paras => String.intercalate "\n" paras
    | Except.error e => docxErrorText e
  else ""

/-- The anchored pattern `^[A-Z][a-z]+ [A-Z][a-z]+` of `guess_name`,
as tested by `re.match` on a line: an upper-case letter, a non-empty
lower-case run (maximal, since a space is not lower-case), a space,
an upper-case letter, and at least one lower-case letter. -/
def matchNameStart (l : List Char) : Bool :=
  match l with
  | [] => false
  | c1 :: rest =>
    asciiUpper c1 && !(rest.takeWhile asciiLower).isEmpty &&
      (match rest.dropWhile asciiLower with
       | ' ' :: c2 :: c3 :: _ => asciiUpper c2 && asciiLower c3
       | _ => false)

/-- `guess_name` (`app.py:47-53`): first stripped line matching the
name pattern; otherwise the first non-blank stripped line truncated
to 80 characters; otherwise `"Unknown"`. -/
def guess_name (text : String) : String :=
  match ((pySplitlines text).map pyStrip).find? (fun s => matchNameStart s.data) with
  | some s => s
  | none =>
    match ((pySplitlines text).map pyStrip).find? (fun s => !s.isEmpty) with
    | some first => String.mk (first.data.take 80)
    | none => "Unknown"

/-- `find_emails` (`app.py:55-56`). -/
def find_emails (text : String) : List String := pyFindAll emailMatchAt text

/-- `find_phones` (`app.py:58-59`). -/
def find_phones (text : String) : List String := pyFindAll phoneMatchAt text

/-- The keyword→weight table of `score_text` (`app.py:62-79`). -/
def keywordTable : List (String × Nat) :=
  [("python", 3), ("machine learning", 4), ("deep learning", 4), ("ai", 3),
   ("data science", 3), ("opencv", 2), ("django", 2), ("flask", 2),
   ("pytorch", 3), ("tensorflow", 3), ("sql", 2), ("aws", 2),
   ("docker", 2), ("nlp", 3), ("computer vision", 3), ("object detection", 3)]

/-- `score_text` (`app.py:61-84`): weighted non-overlapping substring
counts over the lower-cased text, `+2` if `EMAIL_RE` matches
somewhere in the original text, `+1` if `PHONE_RE` does.  The
`int(...)` of the source is the identity on this sum of naturals. -/
def score_text (text : String) : Nat :=
  let txt := strLower text
  let base := (keywordTable.map (fun kw => pyCount txt kw.1 * kw.2)).sum
  let withEmail := if reSearch emailMatchAt text then base + 2 else base
  if reSearch phoneMatchAt text then withEmail + 1 else withEmail

/-- `os.path.splitext(fname)[0]`: everything before the last dot,
except that a dot with only dots before it starts no extension. -/
def splitextRoot (s : String) : String :=
  let l := s.data
  let extLen := (l.reverse.takeWhile (fun c => c ≠ '.')).length
  if extLen = l.length then s
  else
    let dotIdx := l.length - extLen - 1
    if (l.take dotIdx).any (fun c => c ≠ '.') then String.mk (l.take dotIdx) else s

/-- Python `dict.fromkeys(l)` read back as a list of keys:
deduplication keeping the first occurrence of each element, in
encounter order (`app.py:105-106`). -/
def dictFromKeys (l : List String) : List String :=
  l.foldl (fun acc x => if x ∈ acc then acc else acc ++ [x]) []

/-! ## The pipeline `analyze_all_resumes` (`app.py:90-119`) -/

/-- One assembled record of the loop body (`app.py:96-109`), before
ranking.  `emails`/`phones` are the comma-joined deduplicated match
lists, exactly as stored in the row dict. -/
structure ResumeRow where
  filename : String
  name : String
  emails : String
  phones : String
  score : Nat
  uploaded_at : String
deriving DecidableEq, Repr

/-- The loop body (`app.py:95-109`) for one stored file. -/
def buildRow (f : StoredFile) : ResumeRow :=
  let text := extract_text_from_file f
  let g := guess_name text
  { filename := f.filename
    name := if g = "" then splitextRoot f.filename else g
    emails := String.intercalate ", " (dictFromKeys (find_emails text))
    phones := String.intercalate ", " (dictFromKeys (find_phones text))
    score := score_text text
    uploaded_at := f.mtimeStr }

/-- A record of the returned list, with its `Rank` column
(`app.py:115-119`). -/
structure RankedRow where
  rank : Nat
  filename : String
  name : String
  emails : String
  phones : String
  score : Nat
  uploaded_at : String
deriving DecidableEq, Repr

def toRanked (i : Nat) (r : ResumeRow) : RankedRow :=
  ⟨i, r.filename, r.name, r.emails, r.phones, r.score, r.uploaded_at⟩

/-- `df.index = df.index + 1; df.insert(0, "Rank", df.index)`: the
`i`-th row of the sorted frame (0-based) gets rank `i + 1`. -/
def attachRanks (i : Nat) : List ResumeRow → List RankedRow
  | [] => []
  | r :: rs => toRanked i r :: attachRanks (i + 1) rs

/-- The written `ranked_resumes.xlsx`, abstracted as its header row
and its data rows (`to_excel(..., index=False)` writes exactly
those). -/
structure ExportArtifact where
  header : List String
  rows : List RankedRow
deriving DecidableEq

/-- The column order of the export artifact.  In the non-empty branch
the frame's columns are the dict insertion order
`filename, name, emails, phones, score, uploaded_at` with `Rank`
inserted at position 0, which is the same list. -/
def resultHeader : List String :=
  ["Rank", "filename", "name", "emails", "phones", "score", "uploaded_at"]

/-- Python string comparison: lexicographic by code point. -/
def lexLe : List Char → List Char → Bool
  | [], _ => true
  | _ :: _, [] => false
  | a :: as, b :: bs =>
    if a.toNat < b.toNat then true
    else if b.toNat < a.toNat then false
    else lexLe as bs

/-- `sorted(os.listdir(UPLOAD_FOLDER))` (`app.py:92`), acting on the
stored files themselves: ascending lexicographic filename order. -/
def sortByFilename (files : List StoredFile) : List StoredFile :=
  List.insertionSort (fun a b => lexLe a.filename.data b.filename.data = true) files

/-- Steps 1-2 of the pipeline (`app.py:91-109`): enumerate in sorted
filename order, keep the allowed extensions, assemble one record per
file. -/
def pipelineRows (files : List StoredFile) : List ResumeRow :=
  ((sortByFilename files).filter (fun f => allowed_file f.filename)).map buildRow

/-- The documented contract of
`df.sort_values(by="score", ascending=False)`: the result is a
permutation of the input rows, sorted by descending score.  The
default `kind='quicksort'` guarantees nothing further (in
particular, not stability), so the pipeline is parametrised by any
`sortImpl` meeting this contract. -/
def ScoreSortSpec (sortImpl : List ResumeRow → List ResumeRow) : Prop :=
  ∀ rows : List ResumeRow,
    List.Perm (sortImpl rows) rows ∧
      List.Sorted (fun a b => b.score ≤ a.score) (sortImpl rows)

/-- One concrete sort meeting `ScoreSortSpec`, used to instantiate
witnesses. -/
def sortRowsDesc : List ResumeRow → List ResumeRow :=
  List.insertionSort (fun a b => b.score ≤ a.score)

/-- `analyze_all_resumes` (`app.py:90-119`): returns the ranked
record list and the export artifact.  The empty branch
(`app.py:112-114`) writes a header-only artifact; otherwise the rows
are sorted by descending score, ranks `1..N` are attached and the
artifact carries the same ranked rows. -/
def analyze_all_resumes (sortImpl : List ResumeRow → List ResumeRow)
    (files : List StoredFile) : List RankedRow × ExportArtifact :=
  let rows := pipelineRows files
  if rows.isEmpty then ([], ⟨resultHeader, []⟩)
  else
    let ranked := attachRanks 1 (sortImpl rows)
    (ranked, ⟨resultHeader, ranked⟩)

/-! ## Specification-side definition for the dedup claim (C9) -/

/-- Modelled from the spec's words (refinement target for C9):
"deduplicated, insertion order preserved" — keep an element iff it
has not been seen before, scanning left to right. -/
def dedupSeen (seen : List String) : List String → List String
  | [] => []
  | x :: xs => if x ∈ seen then dedupSeen seen xs else x :: dedupSeen (x :: seen) xs

/-! ## Shape predicate for phone matches (C7) -/

/-- Core shape of a `PHONE_RE` match after the optional `+`: a digit,
at least 7 characters of `[\d\s-]`, and a final digit. -/
def phoneShapeCore : List Char → Bool
  | [] => false
  | d :: rest =>
    asciiDigit d && !rest.isEmpty && asciiDigit (rest.getLastD ' ') &&
      rest.dropLast.all phoneChar && decide (7 ≤ rest.dropLast.length)

/-- Shape of a full `PHONE_RE` match: optional leading `+`, then the
core shape (hence at least 9 characters not counting the `+`). -/
def phoneShape (l : List Char) : Bool :=
  phoneShapeCore (if l.head? = some '+' then l.tail else l)

/-! ## Basic helper lemmas -/

theorem strMk_data (l : List Char) : (String.mk l).data = l := rfl

theorem strMk_eq_empty_iff (l : List Char) : String.mk l = "" ↔ l = [] := by
  constructor
  · intro h
    exact congrArg String.data h
  · intro h
    rw [h]

theorem strData_eq_nil (s : String) (h : s.data = []) : s = "" := by
  cases s with
  | mk d =>
    rw [show d = [] from h]

/-- `guess_name` never returns the empty string: a matched line starts
with an upper-case letter, the fallback line is non-blank (and
truncation to 80 characters keeps its head), and `"Unknown"` is
non-empty.  Hence the `or os.path.splitext(fname)[0]` fallback of
`app.py:97` can never fire. -/
theorem guessName_ne_empty (t : String) : guess_name t ≠ "" := by
  unfold guess_name
  split
  next s hs =>
    have hp := List.find?_some hs
    intro he
    rw [he] at hp
    exact absurd hp (by decide)
  next =>
    split
    next first hf =>
      have hp := List.find?_some hf
      have hne : first ≠ "" := by
        intro he
        rw [he] at hp
        exact absurd hp (by decide)
      have hdata : first.data ≠ [] := fun hh => hne (strData_eq_nil first hh)
      intro he
      have htake : first.data.take 80 = [] := (strMk_eq_empty_iff _).mp he
      cases hd : first.data with
      | nil => exact hdata hd
      | cons c cs =>
        rw [hd] at htake
        exact absurd htake (by simp [List.take_succ_cons])
    next =>
      decide

/-- If some stripped line matches the name pattern, `guess_name`
returns the first such line. -/
theorem guessName_eq_of_find (t s : String)
    (h : ((pySplitlines t).map pyStrip).find? (fun x => matchNameStart x.data) = some s) :
    guess_name t = s := by
  unfold guess_name
  rw [h]

theorem buildRow_filename (f : StoredFile) : (buildRow f).filename = f.filename := rfl

theorem buildRow_name (f : StoredFile) :
    (buildRow f).name = guess_name (extract_text_from_file f) := by
  unfold buildRow
  simp only
  rw [if_neg (guessName_ne_empty _)]

theorem buildRow_emails (f : StoredFile) :
    (buildRow f).emails
      = String.intercalate ", " (dictFromKeys (find_emails (extract_text_from_file f))) := rfl

theorem buildRow_phones (f : StoredFile) :
    (buildRow f).phones
      = String.intercalate ", " (dictFromKeys (find_phones (extract_text_from_file f))) := rfl

theorem buildRow_score (f : StoredFile) :
    (buildRow f).score = score_text (extract_text_from_file f) := rfl

theorem buildRow_uploaded (f : StoredFile) : (buildRow f).uploaded_at = f.mtimeStr := rfl

theorem sortByFilename_perm (files : List StoredFile) :
    List.Perm (sortByFilename files) files :=
  List.perm_insertionSort _ files

theorem attachRanks_length (i : Nat) (l : List ResumeRow) :
    (attachRanks i l).length = l.length := by
  induction l generalizing i with
  | nil => rfl
  | cons r rs ih => simp [attachRanks, ih]

theorem attachRanks_map_rank (i : Nat) (l : List ResumeRow) :
    (attachRanks i l).map RankedRow.rank = List.range' i l.length := by
  induction l generalizing i with
  | nil => rfl
  | cons r rs ih => simp [attachRanks, List.range'_succ, ih, toRanked]

/-! ## Deduplication lemmas (for C9) -/

theorem dedupSeen_congr (l : List String) : ∀ s1 s2 : List String,
    (∀ y, y ∈ s1 ↔ y ∈ s2) → dedupSeen s1 l = dedupSeen s2 l := by
  induction l with
  | nil => intro s1 s2 _; rfl
  | cons x xs ih =>
    intro s1 s2 h
    simp only [dedupSeen]
    by_cases hx : x ∈ s1
    · rw [if_pos hx, if_pos ((h x).mp hx), ih s1 s2 h]
    · rw [if_neg hx, if_neg (fun hh => hx ((h x).mpr hh)),
        ih (x :: s1) (x :: s2) (by intro y; simp [List.mem_cons, h y])]

theorem dictFromKeys_go (l : List String) : ∀ acc : List String,
    l.foldl (fun acc x => if x ∈ acc then acc else acc ++ [x]) acc
      = acc ++ dedupSeen acc l := by
  induction l with
  | nil => intro acc; simp [dedupSeen]
  | cons x xs ih =>
    intro acc
    simp only [List.foldl_cons, dedupSeen]
    by_cases hx : x ∈ acc
    · rw [if_pos hx, if_pos hx, ih acc]
    · rw [if_neg hx, if_neg hx, ih (acc ++ [x]),
        dedupSeen_congr xs (acc ++ [x]) (x :: acc)
          (by intro y; simp [List.mem_append, List.mem_cons]; tauto)]
      simp [List.append_assoc]

/-- `dict.fromkeys` refines the spec-side first-seen deduplication. -/
theorem dictFromKeys_eq_dedupSeen (l : List String) : dictFromKeys l = dedupSeen [] l := by
  have h := dictFromKeys_go l []
  simpa [dictFromKeys] using h

theorem dedupSeen_nodup : ∀ (l seen : List String),
    (dedupSeen seen l).Nodup ∧ ∀ x ∈ dedupSeen seen l, x ∉ seen := by
  intro l
  induction l with
  | nil => intro seen; exact ⟨List.nodup_nil, by simp [dedupSeen]⟩
  | cons x xs ih =>
    intro seen
    simp only [dedupSeen]
    by_cases hx : x ∈ seen
    · rw [if_pos hx]; exact ih seen
    · rw [if_neg hx]
      obtain ⟨hnd, hns⟩ := ih (x :: seen)
      refine ⟨List.nodup_cons.mpr ⟨fun hmem => (hns x hmem) (List.mem_cons_self x seen), hnd⟩, ?_⟩
      intro y hy
      rcases List.mem_cons.mp hy with rfl | hy2
      · exact hx
      · intro hys
        exact hns y hy2 (List.mem_cons_of_mem _ hys)

theorem dictFromKeys_nodup (l : List String) : (dictFromKeys l).Nodup := by
  rw [dictFromKeys_eq_dedupSeen]
  exact (dedupSeen_nodup l []).1

/-! ## Pipeline lemmas (for C1 and C3) -/

theorem pipelineRows_of_all_allowed (files : List StoredFile)
    (h : ∀ f ∈ files, allowed_file f.filename = true) :
    (pipelineRows files).length = files.length := by
  unfold pipelineRows
  rw [List.filter_eq_self.mpr (fun a ha => h a ((sortByFilename_perm files).mem_iff.mp ha)),
    List.length_map]
  exact (sortByFilename_perm files).length_eq

theorem pipelineRows_of_none_allowed (files : List StoredFile)
    (h : ∀ f ∈ files, allowed_file f.filename = false) :
    pipelineRows files = [] := by
  unfold pipelineRows
  rw [List.filter_eq_nil_iff.mpr
    (fun a ha => by simp [h a ((sortByFilename_perm files).mem_iff.mp ha)])]
  rfl

/-! ## Claims -/

/-- C3: if no stored file has a pdf or docx extension, the pipeline
returns the empty list and the export artifact holds exactly the
header row `Rank, filename, name, emails, phones, score,
uploaded_at` and no data row. -/
theorem claim3_empty_input (sortImpl : List ResumeRow → List ResumeRow)
    (files : List StoredFile)
    (h : ∀ f ∈ files, allowed_file f.filename = false) :
    analyze_all_resumes sortImpl files
        = ([], ⟨["Rank", "filename", "name", "emails", "phones", "score", "uploaded_at"], []⟩) := by
  unfold analyze_all_resumes
  rw [pipelineRows_of_none_allowed files h]
  rfl

/-- Witness for C3 at a directory holding one text file. -/
theorem claim3_empty_input_witness :
    analyze_all_resumes sortRowsDesc [⟨"notes.txt", Except.ok "python", Except.ok [], "t0"⟩]
        = ([], ⟨["Rank", "filename", "name", "emails", "phones", "score", "uploaded_at"], []⟩) :=
  claim3_empty_input sortRowsDesc _ (by decide)

/-- C4: the extractor is total and dispatches case-insensitively on
the extension: for a `.pdf` path it returns the PDF capability's
text, or the bracketed `[PDF read error: m]` diagnostic when that
capability raises `m`; for a `.docx` path likewise with the
newline-joined paragraphs and `[DOCX read error: m]`; for any other
extension it returns `""`. -/
theorem claim4_extractor_dispatch (f : StoredFile) :
    (strEndsWith (strLower f.filename) ".pdf" = true →
      (∀ t, f.pdfBeh = Except.ok t → extract_text_from_file f = t) ∧
      (∀ m, f.pdfBeh = Except.error m →
        extract_text_from_file f = "[PDF read error: " ++ m ++ "]")) ∧
    (strEndsWith (strLower f.filename) ".pdf" = false →
      strEndsWith (strLower f.filename) ".docx" = true →
      (∀ ps, f.docxBeh = Except.ok ps →
        extract_text_from_file f = String.intercalate "\n" ps) ∧
      (∀ m, f.docxBeh = Except.error m →
        extract_text_from_file f = "[DOCX read error: " ++ m ++ "]")) ∧
    (strEndsWith (strLower f.filename) ".pdf" = false →
      strEndsWith (strLower f.filename) ".docx" = false →
      extract_text_from_file f = "") := by
  refine ⟨fun h1 => ⟨fun t ht => ?_, fun m hm => ?_⟩,
          fun h1 h2 => ⟨fun ps hps => ?_, fun m hm => ?_⟩,
          fun h1 h2 => ?_⟩ <;>
    simp [extract_text_from_file, pdfErrorText, docxErrorText, h1, *]

/-- Witness for C4: an upper-cased `.PDF` path whose extraction
raises `boom` yields the bracketed diagnostic. -/
theorem claim4_extractor_dispatch_witness :
    extract_text_from_file ⟨"Report.PDF", Except.error "boom", Except.ok [], "t0"⟩
      = "[PDF read error: boom]" :=
  ((claim4_extractor_dispatch ⟨"Report.PDF", Except.error "boom", Except.ok [], "t0"⟩).1
    (by decide)).2 "boom" rfl

/-- C5 counterexample: the claim says the record name falls back to
the filename stem when the guess yields nothing; but for a blank
extracted text (no usable line) and filename `resume.pdf` the record
name is `"Unknown"`, not the stem `"resume"`. -/
theorem claim5_counterexample :
    guess_name "" = "Unknown" ∧
    (buildRow ⟨"resume.pdf", Except.ok "", Except.ok [], "t0"⟩).name = "Unknown" ∧
    splitextRoot "resume.pdf" = "resume" ∧
    (buildRow ⟨"resume.pdf", Except.ok "", Except.ok [], "t0"⟩).name
      ≠ splitextRoot "resume.pdf" := by
  refine ⟨by decide, by decide, by decide, by decide⟩

/-- C5 (amended): the record's name is exactly `guess_name` of the
extracted text; `guess_name` never yields the empty string (it is
`"Unknown"` when the text has no non-blank line), so the
filename-stem fallback `or os.path.splitext(fname)[0]` of
`app.py:97` is unreachable and the stem never appears as a record
name unless `guess_name` itself produced it. -/
theorem claim5_amended_name_fallback :
    (∀ t : String, 0 < (guess_name t).length) ∧
    (∀ f : StoredFile, (buildRow f).name = guess_name (extract_text_from_file f)) ∧
    guess_name "" = "Unknown" := by
  refine ⟨fun t => ?_, fun f => buildRow_name f, by decide⟩
  have h := guessName_ne_empty t
  have hd : (guess_name t).data ≠ [] := fun hh => h (strData_eq_nil _ hh)
  have : (guess_name t).data.length ≠ 0 := fun hh => hd (List.length_eq_zero.mp hh)
  exact Nat.pos_of_ne_zero this

/-- C8: the worked scoring example: the text scores 10, decomposed as
3 (`python`) + 3 (`ai`) + 2 (`sql`) + 2 (email-presence bonus), with
every other keyword counting 0 and no phone bonus. -/
theorem claim8_scoring_example :
    score_text "Python developer with AI and SQL experience. Contact: a@b.com" = 10 ∧
    pyCount (strLower "Python developer with AI and SQL experience. Contact: a@b.com") "python" = 1 ∧
    pyCount (strLower "Python developer with AI and SQL experience. Contact: a@b.com") "ai" = 1 ∧
    pyCount (strLower "Python developer with AI and SQL experience. Contact: a@b.com") "sql" = 1 ∧
    (keywordTable.map (fun kw =>
        pyCount (strLower "Python developer with AI and SQL experience. Contact: a@b.com") kw.1 * kw.2)).sum = 8 ∧
    reSearch emailMatchAt "Python developer with AI and SQL experience. Contact: a@b.com" = true ∧
    reSearch phoneMatchAt "Python developer with AI and SQL experience. Contact: a@b.com" = false := by
  refine ⟨by decide, by decide, by decide, by decide, by decide, by decide, by decide⟩

/-- C10: a stored file whose extraction yields the empty string is
assembled into a record with name `"Unknown"`, empty emails, empty
phones and score 0. -/
theorem claim10_empty_text_record (f : StoredFile)
    (h : extract_text_from_file f = "") :
    (buildRow f).name = "Unknown" ∧ (buildRow f).emails = "" ∧
    (buildRow f).phones = "" ∧ (buildRow f).score = 0 := by
  refine ⟨?_, ?_, ?_, ?_⟩
  · rw [buildRow_name, h]; decide
  · rw [buildRow_emails, h]; decide
  · rw [buildRow_phones, h]; decide
  · rw [buildRow_score, h]; decide

/-- Witness for C10: a parseable but blank `.docx` file. -/
theorem claim10_empty_text_record_witness :
    (buildRow ⟨"blank.docx", Except.ok "", Except.ok [], "t0"⟩).name = "Unknown" ∧
    (buildRow ⟨"blank.docx", Except.ok "", Except.ok [], "t0"⟩).emails = "" ∧
    (buildRow ⟨"blank.docx", Except.ok "", Except.ok [], "t0"⟩).phones = "" ∧
    (buildRow ⟨"blank.docx", Except.ok "", Except.ok [], "t0"⟩).score = 0 :=
  claim10_empty_text_record ⟨"blank.docx", Except.ok "", Except.ok [], "t0"⟩ (by decide)

/-! ## C1: ranks are a dense permutation 1..N -/

instance : IsTotal ResumeRow (fun a b => b.score ≤ a.score) :=
  ⟨fun a b => Nat.le_total b.score a.score⟩

instance : IsTrans ResumeRow (fun a b => b.score ≤ a.score) :=
  ⟨fun _ _ _ h1 h2 => Nat.le_trans h2 h1⟩

/-- The concrete witness sort meets the documented `sort_values`
contract. -/
theorem sortRowsDesc_spec : ScoreSortSpec sortRowsDesc := by
  intro rows
  exact ⟨List.perm_insertionSort _ rows, List.sorted_insertionSort _ rows⟩

/-- C1: for a directory in which every file has an allowed
(pdf/docx) extension, one pipeline run returns exactly one record
per file, and the rank fields of the returned list, in order, are
exactly `1, 2, ..., N`. -/
theorem claim1_ranks_dense (sortImpl : List ResumeRow → List ResumeRow)
    (hspec : ScoreSortSpec sortImpl) (files : List StoredFile)
    (hall : ∀ f ∈ files, allowed_file f.filename = true) :
    (analyze_all_resumes sortImpl files).1.length = files.length ∧
    (analyze_all_resumes sortImpl files).1.map RankedRow.rank
      = List.range' 1 files.length := by
  have hlen := pipelineRows_of_all_allowed files hall
  cases hre : (pipelineRows files).isEmpty with
  | true =>
    have h0 : pipelineRows files = [] := List.isEmpty_iff.mp hre
    have hf0 : files.length = 0 := by rw [← hlen, h0]; rfl
    rw [hf0]
    unfold analyze_all_resumes
    rw [h0]
    exact ⟨rfl, rfl⟩
  | false =>
    have hperm := (hspec (pipelineRows files)).1
    have hlen2 : (sortImpl (pipelineRows files)).length = files.length := by
      rw [hperm.length_eq, hlen]
    have hcond : ¬ ((pipelineRows files).isEmpty = true) := by
      rw [hre]
      exact Bool.false_ne_true
    constructor
    · unfold analyze_all_resumes
      rw [if_neg hcond]
      rw [attachRanks_length, hlen2]
    · unfold analyze_all_resumes
      rw [if_neg hcond]
      rw [attachRanks_map_rank, hlen2]

/-- Witness for C1 at a two-file directory. -/
theorem claim1_ranks_dense_witness :
    (analyze_all_resumes sortRowsDesc
        [⟨"b.pdf", Except.ok "python", Except.ok [], "t1"⟩,
         ⟨"a.docx", Except.error "bad", Except.ok [], "t2"⟩]).1.length = 2 ∧
    (analyze_all_resumes sortRowsDesc
        [⟨"b.pdf", Except.ok "python", Except.ok [], "t1"⟩,
         ⟨"a.docx", Except.error "bad", Except.ok [], "t2"⟩]).1.map RankedRow.rank
      = List.range' 1 2 :=
  claim1_ranks_dense sortRowsDesc sortRowsDesc_spec
    [⟨"b.pdf", Except.ok "python", Except.ok [], "t1"⟩,
     ⟨"a.docx", Except.error "bad", Except.ok [], "t2"⟩] (by decide)

/-! ## C6: diagnostic error text goes through the ordinary heuristics -/

/-- When `guess_name` returns `"Unknown"`, no stripped line of the
text matches the name pattern (a matching line would have been
found and returned, and it cannot be `"Unknown"`, which does not
match the pattern). -/
theorem guessName_unknown_no_match (t : String) (hu : guess_name t = "Unknown") :
    ∀ l ∈ pySplitlines t, matchNameStart (pyStrip l).data = false := by
  intro l hl
  by_contra hc
  rw [Bool.not_eq_false] at hc
  have hmem : pyStrip l ∈ (pySplitlines t).map pyStrip :=
    List.mem_map_of_mem _ hl
  have hsome : (((pySplitlines t).map pyStrip).find?
      (fun x => matchNameStart x.data)).isSome = true :=
    List.find?_isSome.mpr ⟨pyStrip l, hmem, hc⟩
  obtain ⟨s, hs⟩ := Option.isSome_iff_exists.mp hsome
  have hgs := guessName_eq_of_find t s hs
  have hps := List.find?_some hs
  rw [hgs] at hu
  rw [hu] at hps
  exact absurd hps (by decide)

/-- C6: a document whose extraction raises `m` — on the PDF path
(`app.py:38`) or on the DOCX path (`app.py:44`) — is assembled by
the ordinary heuristics applied to its bracketed diagnostic text
with no special-casing of error text; for both diagnostics, the
name is `"Unknown"` only if no stripped line of the diagnostic
matches the two-capitalised-words pattern, and when some stripped
line does match, the first such line becomes the name. -/
theorem claim6_error_text_heuristics (m fname ts : String) :
    (∀ d : Except String (List String),
      strEndsWith (strLower fname) ".pdf" = true →
      (buildRow ⟨fname, Except.error m, d, ts⟩).name = guess_name (pdfErrorText m) ∧
      (buildRow ⟨fname, Except.error m, d, ts⟩).emails
        = String.intercalate ", " (dictFromKeys (find_emails (pdfErrorText m))) ∧
      (buildRow ⟨fname, Except.error m, d, ts⟩).phones
        = String.intercalate ", " (dictFromKeys (find_phones (pdfErrorText m))) ∧
      (buildRow ⟨fname, Except.error m, d, ts⟩).score = score_text (pdfErrorText m)) ∧
    (∀ p : Except String String,
      strEndsWith (strLower fname) ".pdf" = false →
      strEndsWith (strLower fname) ".docx" = true →
      (buildRow ⟨fname, p, Except.error m, ts⟩).name = guess_name (docxErrorText m) ∧
      (buildRow ⟨fname, p, Except.error m, ts⟩).emails
        = String.intercalate ", " (dictFromKeys (find_emails (docxErrorText m))) ∧
      (buildRow ⟨fname, p, Except.error m, ts⟩).phones
        = String.intercalate ", " (dictFromKeys (find_phones (docxErrorText m))) ∧
      (buildRow ⟨fname, p, Except.error m, ts⟩).score = score_text (docxErrorText m)) ∧
    (∀ t ∈ [pdfErrorText m, docxErrorText m],
      (guess_name t = "Unknown" →
        ∀ l ∈ pySplitlines t, matchNameStart (pyStrip l).data = false) ∧
      (∀ s, ((pySplitlines t).map pyStrip).find?
          (fun x => matchNameStart x.data) = some s →
        guess_name t = s)) := by
  refine ⟨fun d hpdf => ?_, fun p hnp hdx => ?_, fun t _ => ?_⟩
  · have hex : extract_text_from_file ⟨fname, Except.error m, d, ts⟩ = pdfErrorText m := by
      simp [extract_text_from_file, hpdf]
    exact ⟨by rw [buildRow_name, hex], by rw [buildRow_emails, hex],
      by rw [buildRow_phones, hex], by rw [buildRow_score, hex]⟩
  · have hex : extract_text_from_file ⟨fname, p, Except.error m, ts⟩ = docxErrorText m := by
      simp [extract_text_from_file, hnp, hdx]
    exact ⟨by rw [buildRow_name, hex], by rw [buildRow_emails, hex],
      by rw [buildRow_phones, hex], by rw [buildRow_score, hex]⟩
  · exact ⟨guessName_unknown_no_match t, fun s hs => guessName_eq_of_find t s hs⟩

/-- Witness for C6: on the PDF path, a diagnostic whose second line
matches the name pattern becomes the record's name; on the DOCX
path, a one-line diagnostic with no matching line becomes the name
through the first-non-blank-line fallback. -/
theorem claim6_error_text_heuristics_witness :
    (buildRow ⟨"cv.pdf", Except.error "x]\nJohn Smith was here", Except.ok [], "t0"⟩).name
      = "John Smith was here]" ∧
    (buildRow ⟨"cv.docx", Except.ok "", Except.error "boom", "t0"⟩).name
      = "[DOCX read error: boom]" := by
  constructor
  · have h := claim6_error_text_heuristics "x]\nJohn Smith was here" "cv.pdf" "t0"
    rw [(h.1 (Except.ok []) (by decide)).1]
    exact (h.2.2 (pdfErrorText "x]\nJohn Smith was here") (List.mem_cons_self _ _)).2
      "John Smith was here]" (by decide)
  · have h := claim6_error_text_heuristics "boom" "cv.docx" "t0"
    rw [(h.2.1 (Except.ok "") (by decide) (by decide)).1]
    decide

/-! ## C9: email/phone deduplication keeps first-seen order -/

/-- C9: for every text, the recorded email and phone lists are
`dict.fromkeys` deduplication, which equals first-seen-order
deduplication (`dedupSeen`) and yields no duplicates; the record
fields are the comma-joins of those lists; and a text carrying the
same address three times yields exactly one entry for it, at its
first position. -/
theorem claim9_dedup_first_seen :
    (∀ t : String,
      dictFromKeys (find_emails t) = dedupSeen [] (find_emails t) ∧
      (dictFromKeys (find_emails t)).Nodup ∧
      dictFromKeys (find_phones t) = dedupSeen [] (find_phones t) ∧
      (dictFromKeys (find_phones t)).Nodup) ∧
    (∀ f : StoredFile,
      (buildRow f).emails
        = String.intercalate ", " (dictFromKeys (find_emails (extract_text_from_file f))) ∧
      (buildRow f).phones
        = String.intercalate ", " (dictFromKeys (find_phones (extract_text_from_file f)))) ∧
    (find_emails "x@y.com a@b.de x@y.com x@y.com"
        = ["x@y.com", "a@b.de", "x@y.com", "x@y.com"] ∧
     dictFromKeys (find_emails "x@y.com a@b.de x@y.com x@y.com")
        = ["x@y.com", "a@b.de"]) := by
  refine ⟨fun t => ⟨dictFromKeys_eq_dedupSeen _, dictFromKeys_nodup _,
      dictFromKeys_eq_dedupSeen _, dictFromKeys_nodup _⟩,
    fun f => ⟨buildRow_emails f, buildRow_phones f⟩, by decide, by decide⟩

/-! ## C7: shape of every reported phone match -/

theorem takeAppendOfLe {α : Type} (l2 : List α) : ∀ (l1 : List α) (n : Nat),
    n ≤ l1.length → (l1 ++ l2).take n = l1.take n := by
  intro l1
  induction l1 with
  | nil =>
    intro n h
    rw [Nat.le_zero.mp h]
    rfl
  | cons a as ih =>
    intro n h
    cases n with
    | zero => rfl
    | succ k =>
      simp only [List.cons_append, List.take_succ_cons]
      rw [ih k (Nat.le_of_succ_le_succ h)]

theorem takeSuccGetD {α : Type} (dflt : α) : ∀ (l : List α) (k : Nat),
    k < l.length → l.take (k + 1) = l.take k ++ [l.getD k dflt] := by
  intro l
  induction l with
  | nil =>
    intro k h
    exact absurd h (by simp)
  | cons a as ih =>
    intro k h
    cases k with
    | zero => simp [List.getD_cons_zero]
    | succ j =>
      have hj : j < as.length := Nat.lt_of_succ_lt_succ h
      simp only [List.take_succ_cons, List.getD_cons_succ]
      rw [ih j hj]
      rfl

theorem lengthTakeWhileLe {α : Type} (p : α → Bool) : ∀ l : List α,
    (l.takeWhile p).length ≤ l.length := by
  intro l
  induction l with
  | nil => exact Nat.le_refl 0
  | cons a as ih =>
    cases hp : p a with
    | false => simp [List.takeWhile_cons, hp]
    | true =>
      simp only [List.takeWhile_cons, hp, if_true, List.length_cons]
      exact Nat.succ_le_succ ih

/-- Every successful `phoneMatchCore` match of length `n` decomposes
as a digit, at least 7 middle-class characters, and a final digit. -/
theorem phoneMatchCore_shape (l : List Char) (n : Nat) (h : phoneMatchCore l = some n) :
    ∃ d mid e, l.take n = d :: (mid ++ [e]) ∧ asciiDigit d = true ∧ asciiDigit e = true ∧
      mid.all phoneChar = true ∧ 7 ≤ mid.length ∧ n = mid.length + 2 ∧ n ≤ l.length := by
  cases l with
  | nil => simp [phoneMatchCore] at h
  | cons c rest =>
    simp only [phoneMatchCore] at h
    by_cases hd : asciiDigit c = true
    · rw [if_pos hd] at h
      cases hf : (List.range (rest.takeWhile phoneChar).length).reverse.find?
          (fun k => phoneEndOk (rest.takeWhile phoneChar) k) with
      | none =>
        rw [hf] at h
        exact absurd h (by simp)
      | some k =>
        rw [hf] at h
        simp only [Option.some.injEq] at h
        subst h
        have hk := List.find?_some hf
        have hkm := List.mem_of_find?_eq_some hf
        have hklt : k < (rest.takeWhile phoneChar).length :=
          List.mem_range.mp (List.mem_reverse.mp hkm)
        simp only [phoneEndOk, Bool.and_eq_true, decide_eq_true_eq] at hk
        obtain ⟨hk7, hkd⟩ := hk
        refine ⟨c, (rest.takeWhile phoneChar).take k,
          (rest.takeWhile phoneChar).getD k ' ', ?_, hd, hkd, ?_, ?_, ?_, ?_⟩
        · have h1 : rest = rest.takeWhile phoneChar ++ rest.dropWhile phoneChar :=
            (List.takeWhile_append_dropWhile phoneChar rest).symm
          calc (c :: rest).take (k + 2)
              = c :: rest.take (k + 1) := rfl
            _ = c :: (rest.takeWhile phoneChar ++ rest.dropWhile phoneChar).take (k + 1) := by
                rw [← h1]
            _ = c :: (rest.takeWhile phoneChar).take (k + 1) := by
                rw [takeAppendOfLe _ _ (k + 1) hklt]
            _ = c :: ((rest.takeWhile phoneChar).take k
                  ++ [(rest.takeWhile phoneChar).getD k ' ']) := by
                rw [takeSuccGetD ' ' _ k hklt]
        · rw [List.all_eq_true]
          intro x hx
          exact List.mem_takeWhile_imp (List.take_subset k _ hx)
        · rw [List.length_take, min_eq_left (Nat.le_of_lt hklt)]
          exact hk7
        · rw [List.length_take, min_eq_left (Nat.le_of_lt hklt)]
        · have h2 : (rest.takeWhile phoneChar).length ≤ rest.length :=
            lengthTakeWhileLe phoneChar rest
          simp only [List.length_cons]
          omega
    · rw [if_neg hd] at h
      exact absurd h (by simp)

theorem phoneShapeCoreBuild (d e : Char) (mid : List Char)
    (hd : asciiDigit d = true) (he : asciiDigit e = true)
    (hall : mid.all phoneChar = true) (h7 : 7 ≤ mid.length) :
    phoneShapeCore (d :: (mid ++ [e])) = true := by
  have hne : (mid ++ [e]).isEmpty = false := by cases mid <;> rfl
  simp only [phoneShapeCore]
  rw [List.getLastD_concat, List.dropLast_concat]
  simp [hd, he, hne, hall, h7]

/-- Every successful `phoneMatchAt` match has the phone shape and at
least 9 characters. -/
theorem phoneMatchAt_shape (l m rest : List Char) (h : phoneMatchAt l = some (m, rest)) :
    phoneShape m = true ∧ 9 ≤ m.length := by
  unfold phoneMatchAt at h
  by_cases hplus : l.head? = some '+'
  · rw [if_pos hplus] at h
    cases hc : phoneMatchCore l.tail with
    | none =>
      rw [hc] at h
      exact absurd h (by simp)
    | some n =>
      rw [hc] at h
      simp only [Option.some.injEq, Prod.mk.injEq] at h
      obtain ⟨hm, -⟩ := h
      obtain ⟨d, mid, e, htake, hd, he, hall, h7, hn, hle⟩ := phoneMatchCore_shape _ _ hc
      obtain ⟨c0, tl, rfl⟩ : ∃ c0 tl, l = c0 :: tl := by
        cases l with
        | nil => simp at hplus
        | cons a b => exact ⟨a, b, rfl⟩
      have hc0 : c0 = '+' := by simpa using hplus
      subst hc0
      simp only [List.tail_cons] at htake hle
      rw [← hm]
      have hmfm : ('+' :: tl).take (n + 1) = '+' :: tl.take n := rfl
      rw [hmfm]
      constructor
      · unfold phoneShape
        rw [if_pos (by simp), List.tail_cons, htake]
        exact phoneShapeCoreBuild d e mid hd he hall h7
      · simp only [List.length_cons, List.length_take, min_eq_left hle]
        omega
  · rw [if_neg hplus] at h
    cases hc : phoneMatchCore l with
    | none =>
      rw [hc] at h
      exact absurd h (by simp)
    | some n =>
      rw [hc] at h
      simp only [Option.some.injEq, Prod.mk.injEq] at h
      obtain ⟨hm, -⟩ := h
      obtain ⟨d, mid, e, htake, hd, he, hall, h7, hn, hle⟩ := phoneMatchCore_shape _ _ hc
      rw [← hm]
      have hdp : ¬ ((l.take n).head? = some '+') := by
        rw [htake]
        simp only [List.head?_cons, Option.some.injEq]
        intro hdplus
        rw [hdplus] at hd
        exact absurd hd (by decide)
      constructor
      · unfold phoneShape
        rw [if_neg hdp, htake]
        exact phoneShapeCoreBuild d e mid hd he hall h7
      · rw [List.length_take, min_eq_left hle]
        omega

/-- Lifting a per-match property through the `findall` scan. -/
theorem reFindAllAux_prop (matchAt : List Char → Option (List Char × List Char))
    (P : List Char → Prop)
    (h : ∀ l m r, matchAt l = some (m, r) → P m) :
    ∀ (fuel : Nat) (l : List Char), ∀ m ∈ reFindAllAux matchAt fuel l, P m := by
  intro fuel
  induction fuel with
  | zero =>
    intro l m hm
    simp [reFindAllAux] at hm
  | succ n ih =>
    intro l m hm
    cases l with
    | nil => simp [reFindAllAux] at hm
    | cons c cs =>
      rw [reFindAllAux] at hm
      cases hma : matchAt (c :: cs) with
      | some pr =>
        rw [hma] at hm
        obtain ⟨m0, r0⟩ := pr
        simp only [List.mem_cons] at hm
        rcases hm with rfl | hm2
        · exact h _ _ _ hma
        · exact ih r0 m hm2
      | none =>
        rw [hma] at hm
        exact ih cs m hm

/-- C7 (amended): every phone string reported by `find_phones`
consists of an optional leading `+`, a digit, then 7 or more
characters drawn from digits, spaces and hyphens, then a trailing
digit — hence is at least 9 characters long (the regex quantifier is
`{7,}`, not `{8,}`). -/
theorem claim7_amended_phone_shape (t : String) :
    (find_phones t).all (fun p => phoneShape p.data && decide (9 ≤ p.length)) = true ∧
    reSearch phoneMatchAt t = !(find_phones t).isEmpty := by
  constructor
  case right =>
    unfold reSearch find_phones pyFindAll
    cases reFindAllAux phoneMatchAt t.data.length t.data <;> rfl
  rw [List.all_eq_true]
  intro p hp
  unfold find_phones pyFindAll at hp
  obtain ⟨lc, hlc, hmk⟩ := List.mem_map.mp hp
  have hprop := reFindAllAux_prop phoneMatchAt
    (fun m => phoneShape m = true ∧ 9 ≤ m.length)
    (fun l m r hh => phoneMatchAt_shape l m r hh) t.data.length t.data lc hlc
  rw [← hmk]
  simp only [strMk_data, Bool.and_eq_true, decide_eq_true_eq]
  exact ⟨hprop.1, hprop.2⟩

/-- C7 counterexample: the claim's "8 or more middle characters /
at least 10 characters" is wrong: the 9-character digit string
`123456789` is reported by `find_phones` (7 middle characters) and
earns the phone bonus in `score_text`. -/
theorem claim7_counterexample :
    find_phones "123456789" = ["123456789"] ∧
    ("123456789" : String).length = 9 ∧
    ¬ (∀ p ∈ find_phones "123456789", 10 ≤ p.length) ∧
    reSearch phoneMatchAt "123456789" = true ∧
    score_text "123456789" = 1 := by
  refine ⟨by decide, by decide, by decide, by decide, by decide⟩
